import Mathlib

/-!
# Verification of the UPI transaction analysis core

Shallow embedding of src/analysis.py (pandas-based analytics over a table of
payment transactions): the loader, the group-by aggregators and the rule-based
anomaly scorer, together with theorems settling the specified properties.

Modelling conventions:
* a DataFrame is a `List` of typed rows, in row order;
* currency amounts and scores are rationals (`ℚ`);
* a value that pandas would represent as NaN/NaT (a missing cell) is
  modelled as `Option.none`; the mean of an empty column, however, is the
  builtin-float NaN, on which the code's `.round(2)` raises
  `AttributeError` — modelled by an `Except` error;
* `Series.round` / Python `round` use banker's rounding (round half to even),
  modelled by `rhe`;
* `groupby(sort=True)` produces groups keyed in ascending key order (for an
  ordered categorical, in the order of the category domain), and drops rows
  whose group key is missing (`dropna=True` default);
* `sort_values(ascending=False)` is implemented by pandas `nargsort` as a
  stable descending sort: values and indices are reversed, a stable
  ascending argsort is taken (numpy introsort is insertion sort on the
  short arrays at issue), and the indexer is reversed again — so ties keep
  their original relative order.
-/

set_option maxHeartbeats 1000000

open List (Perm perm_insertionSort sorted_insertionSort)

/-- The twelve calendar months: the fixed ordered domain that `load_data`
installs on the `month_name` column via `pd.Categorical(..., ordered=True)`. -/
inductive Month where
  | january | february | march | april | may | june
  | july | august | september | october | november | december
deriving DecidableEq, Repr

/-- Calendar position of a month, January = 0 … December = 11. -/
def monthIdx : Month → Nat
  | .january => 0 | .february => 1 | .march => 2 | .april => 3
  | .may => 4 | .june => 5 | .july => 6 | .august => 7
  | .september => 8 | .october => 9 | .november => 10 | .december => 11

/-- The category domain list passed to `pd.Categorical` in `load_data`,
in its fixed order January → December. -/
def calendarMonths : List Month :=
  [.january, .february, .march, .april, .may, .june,
   .july, .august, .september, .october, .november, .december]

/-- One loaded transaction row, with the columns of the input schema.
`month_name` and `category` are `Option`-valued: `pd.Categorical` maps a
name outside the domain to NaN, and an empty CSV cell loads as NaN. -/
structure Row where
  transaction_id : String
  date : Nat
  time : String
  datetime : Nat
  month : Nat
  month_name : Option Month
  day_of_week : String
  hour : Nat
  category : Option String
  merchant : String
  amount : ℚ
  payment_mode : String
  sender_bank : String
  receiver_bank : String
  state : String
  status : String
  is_fraud : Nat
deriving DecidableEq, Repr

/-- A loaded DataFrame: the list of its rows, in order. -/
abbrev Table := List Row

/-- Round half to even, the rounding used by numpy/pandas `round` and
Python's built-in `round`. -/
def rhe (q : ℚ) : ℤ :=
  if q - ⌊q⌋ = 1 / 2 then (if ⌊q⌋ % 2 = 0 then ⌊q⌋ else ⌊q⌋ + 1) else round q

/-- Model of `Series.round(1)`: round to one decimal place, half to even. -/
def round1 (q : ℚ) : ℚ := (rhe (q * 10) : ℚ) / 10

/-- Model of `Series.clip(lo, hi)` on one element. -/
def clip (lo hi x : ℚ) : ℚ := max lo (min hi x)

/-- Model of `Series.rank(pct=True)` for the element `a` of the column `xs`:
average-rank convention — (number of strictly smaller values) plus the
average of the positions occupied by the ties — divided by the column
length.  Equal values receive equal percentile ranks. -/
def rankPct (xs : List ℚ) (a : ℚ) : ℚ :=
  ((xs.countP (fun x => decide (x < a)) : ℚ) + ((xs.count a : ℚ) + 1) / 2) /
    (xs.length : ℚ)

/-- Model of `Series.quantile(0.95)`: linear interpolation at position
`0.95 * (n - 1)` of the sorted column (numpy linear method). -/
def quantile95 (xs : List ℚ) : ℚ :=
  let s := List.insertionSort (fun a b => a ≤ b) xs
  match xs.length with
  | 0 => 0
  | Nat.succ m =>
    let h : ℚ := (19 * m : ℚ) / 20
    let i : ℕ := (⌊h⌋).toNat
    let lo := s.getD i 0
    let hi := s.getD (i + 1) lo
    lo + (h - (i : ℚ)) * (hi - lo)

/-- The odd-hour component of the anomaly score:
`30 if h in range(1, 5) else 0`. -/
def oddHourScore (h : Nat) : ℚ := if 1 ≤ h ∧ h < 5 then 30 else 0

/-- The high-value component: 20 points when the amount strictly exceeds the
0.95 quantile of the whole column, else 0. -/
def highValScore (xs : List ℚ) (a : ℚ) : ℚ :=
  if quantile95 xs < a then 20 else 0

/-- The sum of the three components, before `.clip(0, 100).round(1)`. -/
def preScore (xs : List ℚ) (r : Row) : ℚ :=
  rankPct xs r.amount * 40 + oddHourScore r.hour + highValScore xs r.amount

/-- A row of the table returned by `compute_anomaly_score`: the input row
plus the one derived column `anomaly_score`. -/
structure ScoredRow where
  row : Row
  anomaly_score : ℚ
deriving DecidableEq, Repr

/-- The `anomaly_score` value assigned to row `r` of table `df`. -/
def anomalyScoreOf (df : Table) (r : Row) : ℚ :=
  round1 (clip 0 100 (preScore (df.map Row.amount) r))

/-- The function `compute_anomaly_score`: copies the table and appends the
`anomaly_score` column; percentile rank and quantile are taken over the
entire input table. -/
def compute_anomaly_score (df : Table) : List ScoredRow :=
  df.map (fun r => ⟨r, anomalyScoreOf df r⟩)

/-- Model of `sort_values(by=metric, ascending=False)` as pandas implements
it (`nargsort`): the value array and the index array are reversed, a stable
ascending argsort is taken (numpy introsort is insertion sort on the short
arrays at issue), and the resulting indexer is reversed again — the classic
stable descending sort, so elements tied on the metric keep their original
relative order. -/
def sortValuesDescBy {α : Type} (metric : α → ℚ) (l : List α) : List α :=
  (List.insertionSort (fun a b => metric a ≤ metric b) l.reverse).reverse

/-- The group keys produced by `df.groupby(<string key>)` with the default
`sort=True, dropna=True`: the distinct non-missing key values, in ascending
lexicographic order. -/
def groupKeys (key : Row → Option String) (df : Table) : List String :=
  List.insertionSort (fun a b => a ≤ b) (df.filterMap key).dedup

/-- A row of the `category_summary` output table. -/
structure CatSummaryRow where
  category : String
  total_spend : ℚ
  transaction_count : Nat
  avg_spend : ℚ
  flagged : Nat
deriving DecidableEq, Repr

/-- The rows of `df` belonging to category group `c`. -/
def catGroup (df : Table) (c : String) : Table :=
  df.filter (fun r => r.category = some c)

/-- The aggregate row of `category_summary` for the category `c`. -/
def catRowOf (df : Table) (c : String) : CatSummaryRow :=
  let g := catGroup df c
  { category := c
    total_spend := (g.map Row.amount).sum
    transaction_count := g.length
    avg_spend := (g.map Row.amount).sum / (g.length : ℚ)
    flagged := (g.map Row.is_fraud).sum }

/-- The function `category_summary`: group by `category` (missing keys dropped), compute
sum/count/mean/flagged-sum, then `sort_values("total_spend", ascending=False)`. -/
def category_summary (df : Table) : List CatSummaryRow :=
  sortValuesDescBy (fun x => x.total_spend)
    (List.map (catRowOf df) (groupKeys Row.category df))

/-- A row of the `top_merchants` output table. -/
structure MerchantSummaryRow where
  merchant : String
  total_spend : ℚ
  count : Nat
deriving DecidableEq, Repr

/-- The rows of `df` belonging to merchant group `m`. -/
def merchantGroup (df : Table) (m : String) : Table :=
  df.filter (fun r => r.merchant = m)

/-- The aggregate row of `top_merchants` for merchant `m`. -/
def merchantRowOf (df : Table) (m : String) : MerchantSummaryRow :=
  let g := merchantGroup df m
  { merchant := m
    total_spend := (g.map Row.amount).sum
    count := g.length }

/-- The function `top_merchants`: group by `merchant`, aggregate sum and count, sort
descending by total spend, keep the first `n` rows (`head(n)`). -/
def top_merchants (df : Table) (n : Nat := 10) : List MerchantSummaryRow :=
  (sortValuesDescBy (fun x => x.total_spend)
    (List.map (merchantRowOf df) (groupKeys (fun r => some r.merchant) df))).take n

/-- A row of the `state_summary` output table. -/
structure StateSummaryRow where
  state : String
  total_spend : ℚ
  count : Nat
deriving DecidableEq, Repr

/-- The rows of `df` belonging to state group `s`. -/
def stateGroup (df : Table) (s : String) : Table :=
  df.filter (fun r => r.state = s)

/-- The aggregate row of `state_summary` for the state `s`. -/
def stateRowOf (df : Table) (s : String) : StateSummaryRow :=
  let g := stateGroup df s
  { state := s
    total_spend := (g.map Row.amount).sum
    count := g.length }

/-- The function `state_summary`: group by `state`, aggregate sum and count, sort
descending by total spend. -/
def state_summary (df : Table) : List StateSummaryRow :=
  sortValuesDescBy (fun x => x.total_spend)
    (List.map (stateRowOf df) (groupKeys (fun r => some r.state) df))

/-- A row of the `monthly_summary` output table. -/
structure MonthSummaryRow where
  month_name : Month
  total_spend : ℚ
  transaction_count : Nat
  avg_spend : ℚ
  flagged : Nat
deriving DecidableEq, Repr

/-- The rows of `df` belonging to month group `m`. -/
def monthGroup (df : Table) (m : Month) : Table :=
  df.filter (fun r => r.month_name = some m)

/-- The aggregate row of `monthly_summary` for month `m`. -/
def monthRowOf (df : Table) (m : Month) : MonthSummaryRow :=
  let g := monthGroup df m
  { month_name := m
    total_spend := (g.map Row.amount).sum
    transaction_count := g.length
    avg_spend := (g.map Row.amount).sum / (g.length : ℚ)
    flagged := (g.map Row.is_fraud).sum }

/-- The function `monthly_summary`: `groupby("month_name", observed=True)` on the ordered
categorical installed by `load_data` — with the default `sort=True` the
groups come out in the fixed order of the category domain (calendar order),
restricted to the observed months; NaN month names are dropped. -/
def monthly_summary (df : Table) : List MonthSummaryRow :=
  List.map (monthRowOf df)
    (calendarMonths.filter (fun m => !(monthGroup df m).isEmpty))

/-- The errors `load_data` can propagate.  They are the pandas built-in
exceptions the source lets escape (there is no custom error class in the
code): the `ValueError` that `read_csv` raises when a column named in
`parse_dates` is absent, the `KeyError` of a missing column access, and the
parse error of `pd.to_datetime` on an unparseable `date` cell. -/
inductive LoadError where
  | missingDatetime
  | missingDate
  | unparseableDate (cell : String)
  | missingMonthName
deriving DecidableEq, Repr

/-- A raw CSV file: its header and its data rows, each row a list of
(column, cell) pairs. -/
structure RawCSV where
  header : List String
  rows : List (List (String × String))
deriving DecidableEq, Repr

/-- The cell of a raw row under column `c`; `none` is an empty/missing cell
(NaN after load). -/
def getCell (row : List (String × String)) (c : String) : Option String :=
  (row.find? (fun p => p.1 = c)).map (fun p => p.2)

/-- The `pd.Categorical` conversion of one `month_name` cell: a value
outside the fixed domain becomes NaN (`none`). -/
def monthOfString (s : String) : Option Month :=
  if s = "January" then some .january
  else if s = "February" then some .february
  else if s = "March" then some .march
  else if s = "April" then some .april
  else if s = "May" then some .may
  else if s = "June" then some .june
  else if s = "July" then some .july
  else if s = "August" then some .august
  else if s = "September" then some .september
  else if s = "October" then some .october
  else if s = "November" then some .november
  else if s = "December" then some .december
  else none

/-- Model of `pd.to_datetime(df["date"])` down the `date` column: the first present
cell the parser rejects raises; a missing cell becomes NaT (`none`)
silently. -/
def parseDateColumn (parseD : String → Option Nat) :
    List (List (String × String)) → Except LoadError (List (Option Nat))
  | [] => .ok []
  | row :: rest =>
    match getCell row "date" with
    | none => (parseDateColumn parseD rest).map (fun l => none :: l)
    | some s =>
      match parseD s with
      | none => .error (.unparseableDate s)
      | some d => (parseDateColumn parseD rest).map (fun l => some d :: l)

/-- A row as `load_data` returns it: the parsed temporal fields, the
month-name categorical, and the remaining raw cells untouched.  `datetime`
is `none` when the cell is missing or `read_csv`'s date parsing fell back
— `parse_dates` never raises on an unparseable value, it silently leaves
the column unparsed. -/
structure LoadedRow where
  datetime : Option Nat
  date : Option Nat
  month_name : Option Month
  raw : List (String × String)
deriving DecidableEq, Repr

/-- The function `load_data`, parameterised by the external date parsers
(`parseDT` for `read_csv(parse_dates=["datetime"])`, `parseD` for
`pd.to_datetime` on `date`).  Control flow follows the source: `read_csv`
first checks that the `parse_dates` column exists (ValueError if not) but
never raises while parsing it — and the fallback is column-wise: if any
present `datetime` cell fails to parse, the entire column is left
unparsed (every `datetime` field `none`); `df["date"]` raises KeyError if
absent and `pd.to_datetime` raises on the first unparseable present cell;
`df["month_name"]` raises KeyError if absent, and the categorical
conversion never raises.  No other column is validated. -/
def load_data (parseDT parseD : String → Option Nat) (csv : RawCSV) :
    Except LoadError (List LoadedRow) :=
  if "datetime" ∈ csv.header then
    if "date" ∈ csv.header then
      match parseDateColumn parseD csv.rows with
      | .error e => .error e
      | .ok dates =>
        if "month_name" ∈ csv.header then
          .ok
            (if csv.rows.all (fun row =>
                ((getCell row "datetime").map (fun s => (parseDT s).isSome)).getD true)
            then
              (csv.rows.zip dates).map (fun p =>
                { datetime := (getCell p.1 "datetime").bind parseDT
                  date := p.2
                  month_name := (getCell p.1 "month_name").bind monthOfString
                  raw := p.1 })
            else
              (csv.rows.zip dates).map (fun p =>
                { datetime := none
                  date := p.2
                  month_name := (getCell p.1 "month_name").bind monthOfString
                  raw := p.1 }))
        else .error .missingMonthName
    else .error .missingDate
  else .error .missingDatetime

/-- A concrete row builder for the concrete instances below. -/
def mkRow (id : String) (cat : Option String) (merch : String) (amt : ℚ)
    (h : Nat) (m : Option Month) (st : String) (fraud : Nat) : Row :=
  { transaction_id := id, date := 1, time := "10:00", datetime := 1, month := 1,
    month_name := m, day_of_week := "Monday", hour := h,
    category := cat, merchant := merch, amount := amt, payment_mode := "UPI",
    sender_bank := "HDFC", receiver_bank := "SBI", state := st,
    status := "Success", is_fraud := fraud }

/-- C3: the odd-hour component of `compute_anomaly_score` is exactly 30
points when the hour lies in the set given by `range(1, 5)`, i.e. when
1 ≤ hour < 5, and exactly 0 otherwise; in particular hours 0 and 5
contribute 0. -/
theorem c3_odd_hour_boundary (h : Nat) :
    (oddHourScore h = 30 ↔ (h = 1 ∨ h = 2 ∨ h = 3 ∨ h = 4)) ∧
    (oddHourScore h = 30 ∨ oddHourScore h = 0) ∧
    oddHourScore 0 = 0 ∧ oddHourScore 5 = 0 := by
  unfold oddHourScore
  refine ⟨?_, ?_, by norm_num, by norm_num⟩
  · split_ifs with hc
    · exact ⟨fun _ => by omega, fun _ => rfl⟩
    · exact ⟨fun he => absurd he.symm (by norm_num),
             fun hd => absurd (by omega : 1 ≤ h ∧ h < 5) hc⟩
  · split_ifs <;> simp

/-- C4: `compute_anomaly_score` operates on a copy (`df.copy()`), so it is a
pure function of its input; the returned table consists of exactly the input
rows, in order, each extended with the single derived column
`anomaly_score`. -/
theorem c4_returns_augmented_copy (df : Table) :
    (compute_anomaly_score df).map ScoredRow.row = df ∧
    (compute_anomaly_score df).length = df.length ∧
    ∀ s ∈ compute_anomaly_score df, s.anomaly_score = anomalyScoreOf df s.row := by
  refine ⟨?_, by simp [compute_anomaly_score], ?_⟩
  · rw [compute_anomaly_score, List.map_map]
    have hid : ∀ r ∈ df,
        (ScoredRow.row ∘ fun r => ({ row := r, anomaly_score := anomalyScoreOf df r } : ScoredRow)) r = id r :=
      fun r _ => rfl
    rw [List.map_congr_left hid, List.map_id]
  · intro s hs
    simp only [compute_anomaly_score, List.mem_map] at hs
    obtain ⟨r, _, rfl⟩ := hs
    rfl

/-- Filtering to the rows with a present category does not change the
non-missing category column. -/
theorem filterMap_category_filter_isSome (df : Table) :
    (df.filter (fun r => r.category.isSome)).filterMap Row.category =
      df.filterMap Row.category := by
  induction df with
  | nil => rfl
  | cons r df ih =>
    cases hc : r.category with
    | none => simp [List.filter_cons, List.filterMap_cons, hc, ih]
    | some c => simp [List.filter_cons, List.filterMap_cons, hc, ih]

/-- A category group is unchanged by first dropping the missing-category
rows. -/
theorem catGroup_filter_isSome (df : Table) (c : String) :
    catGroup (df.filter (fun r => r.category.isSome)) c = catGroup df c := by
  unfold catGroup
  rw [List.filter_filter]
  apply List.filter_congr
  intro r _
  cases hc : r.category <;> simp [hc]

/-- C10: rows whose `category` is missing are dropped by
`groupby("category")` (pandas `dropna=True`): `category_summary` of a table
equals `category_summary` of the table restricted to the rows with a
present category, so missing-category rows form no group and contribute to
no metric. -/
theorem c10_missing_category_rows_dropped (df : Table) :
    category_summary df =
      category_summary (df.filter (fun r => r.category.isSome)) := by
  unfold category_summary groupKeys
  rw [filterMap_category_filter_isSome]
  congr 1
  apply List.map_congr_left
  intro c _
  unfold catRowOf
  rw [catGroup_filter_isSome]

/-- The percentile rank of an element of a column lies in (0, 1]. -/
theorem rankPct_mem_bounds (xs : List ℚ) (a : ℚ) (ha : a ∈ xs) :
    0 < rankPct xs a ∧ rankPct xs a ≤ 1 := by
  have hn : 0 < xs.length := List.length_pos.mpr (List.ne_nil_of_mem ha)
  have hcnt : 1 ≤ xs.count a := List.count_pos_iff.mpr ha
  have hsum : xs.countP (fun x => decide (x < a)) + xs.count a ≤ xs.length := by
    have h1 : xs.count a ≤ xs.countP (fun x => decide (a ≤ x)) := by
      rw [List.count_eq_countP]
      apply List.countP_mono_left
      intro x hx hbeq
      have hxa : x = a := by simpa using hbeq
      simp [hxa]
    have h2 : xs.countP (fun x => decide (x < a)) + xs.countP (fun x => decide (a ≤ x)) = xs.length := by
      simpa using (List.length_eq_countP_add_countP (fun x => decide (x < a)) xs).symm
    omega
  unfold rankPct
  have hnq : (0:ℚ) < (xs.length : ℚ) := by exact_mod_cast hn
  have hkq : (1:ℚ) ≤ (xs.count a : ℚ) := by exact_mod_cast hcnt
  have hsq : ((xs.countP (fun x => decide (x < a)) : ℚ)) + (xs.count a : ℚ) ≤ (xs.length : ℚ) := by
    exact_mod_cast hsum
  have hcq : (0:ℚ) ≤ (xs.countP (fun x => decide (x < a)) : ℚ) := by positivity
  constructor
  · apply div_pos _ hnq
    linarith
  · rw [div_le_one hnq]
    linarith

/-- Round-half-even never rounds a nonnegative number negative. -/
theorem rhe_nonneg (q : ℚ) (hq : 0 ≤ q) : 0 ≤ rhe q := by
  unfold rhe
  split_ifs with h1 h2
  · exact Int.floor_nonneg.mpr hq
  · have := Int.floor_nonneg.mpr hq
    omega
  · rw [round_eq]
    exact Int.floor_nonneg.mpr (by linarith)

/-- Round-half-even never rounds past an integer upper bound. -/
theorem rhe_le_of_le (q : ℚ) (c : ℤ) (hq : q ≤ (c:ℚ)) : rhe q ≤ c := by
  unfold rhe
  split_ifs with h1 h2
  · exact le_trans (Int.floor_mono hq) (by simp)
  · have hlt : (⌊q⌋ : ℚ) < (c : ℚ) := by linarith
    have := Int.cast_lt.mp hlt
    omega
  · rw [round_eq]
    have hflt : ⌊q + 1/2⌋ < c + 1 := by
      rw [Int.floor_lt]
      push_cast
      linarith
    omega

/-- Rounding to one decimal keeps a value of [0, 90] inside [0, 100] and
produces an integer multiple of one tenth. -/
theorem round1_bounds (s : ℚ) (h0 : 0 ≤ s) (h90 : s ≤ 90) :
    0 ≤ round1 s ∧ round1 s ≤ 100 ∧ ∃ k : ℤ, round1 s = (k:ℚ)/10 := by
  have hn := rhe_nonneg (s * 10) (by linarith)
  have hl : rhe (s * 10) ≤ 900 := rhe_le_of_le _ 900 (by push_cast; linarith)
  refine ⟨?_, ?_, ⟨rhe (s*10), rfl⟩⟩
  · unfold round1
    apply div_nonneg _ (by norm_num)
    exact_mod_cast hn
  · unfold round1
    rw [div_le_iff₀ (by norm_num : (0:ℚ) < 10)]
    have hcast : ((rhe (s*10) : ℤ) : ℚ) ≤ 900 := by exact_mod_cast hl
    linarith

/-- Clipping to [0, 100] is the identity on values already in range. -/
theorem clip_eq_self (x : ℚ) (h0 : 0 ≤ x) (h100 : x ≤ 100) : clip 0 100 x = x := by
  unfold clip
  rw [min_eq_right h100, max_eq_right h0]

/-- The odd-hour component is between 0 and 30. -/
theorem oddHourScore_bounds (h : Nat) : 0 ≤ oddHourScore h ∧ oddHourScore h ≤ 30 := by
  unfold oddHourScore
  split_ifs <;> norm_num

/-- The high-value component is between 0 and 20. -/
theorem highValScore_bounds (xs : List ℚ) (a : ℚ) :
    0 ≤ highValScore xs a ∧ highValScore xs a ≤ 20 := by
  unfold highValScore
  split_ifs <;> norm_num

/-- C2: for every row of the table the three anomaly components sum to a
value in [0, 90] (at most 40 + 30 + 20), so the defensive clip to [0, 100]
is the identity there; the final `anomaly_score` lies in [0, 100] and is an
integer multiple of one tenth (rounded to 1 decimal). -/
theorem c2_anomaly_score_range (df : Table) (r : Row) (hr : r ∈ df) :
    0 ≤ preScore (df.map Row.amount) r ∧
    preScore (df.map Row.amount) r ≤ 90 ∧
    clip 0 100 (preScore (df.map Row.amount) r) = preScore (df.map Row.amount) r ∧
    0 ≤ anomalyScoreOf df r ∧ anomalyScoreOf df r ≤ 100 ∧
    ∃ k : ℤ, anomalyScoreOf df r = (k:ℚ)/10 := by
  have hmem : r.amount ∈ df.map Row.amount := List.mem_map_of_mem Row.amount hr
  obtain ⟨hrp, hr1⟩ := rankPct_mem_bounds _ _ hmem
  obtain ⟨ho0, ho30⟩ := oddHourScore_bounds r.hour
  obtain ⟨hh0, hh20⟩ := highValScore_bounds (df.map Row.amount) r.amount
  have hs0 : 0 ≤ preScore (df.map Row.amount) r := by
    unfold preScore
    nlinarith
  have hs90 : preScore (df.map Row.amount) r ≤ 90 := by
    unfold preScore
    nlinarith
  have hclip : clip 0 100 (preScore (df.map Row.amount) r) = preScore (df.map Row.amount) r :=
    clip_eq_self _ hs0 (by linarith)
  obtain ⟨ha0, ha100, hk⟩ := round1_bounds _ hs0 hs90
  have heq : anomalyScoreOf df r = round1 (preScore (df.map Row.amount) r) := by
    unfold anomalyScoreOf
    rw [hclip]
  refine ⟨hs0, hs90, hclip, by rw [heq]; exact ha0, by rw [heq]; exact ha100, by rw [heq]; exact hk⟩

/-- A concrete transaction used to instantiate the C2 bounds. -/
def c2row : Row := mkRow "t1" (some "Food") "Zomato" 500 2 (some .january) "MH" 0

/-- A one-row concrete table for the C2 bounds. -/
def c2tab : Table := [c2row]

/-- Witness instantiating the C2 range theorem on a concrete table. -/
theorem c2_anomaly_score_range_witness :
    0 ≤ preScore (c2tab.map Row.amount) c2row ∧
    preScore (c2tab.map Row.amount) c2row ≤ 90 ∧
    clip 0 100 (preScore (c2tab.map Row.amount) c2row) = preScore (c2tab.map Row.amount) c2row ∧
    0 ≤ anomalyScoreOf c2tab c2row ∧ anomalyScoreOf c2tab c2row ≤ 100 ∧
    ∃ k : ℤ, anomalyScoreOf c2tab c2row = (k:ℚ)/10 :=
  c2_anomaly_score_range c2tab c2row (List.mem_singleton.mpr rfl)

/-- The descending sort is a permutation of its input. -/
theorem sortValuesDescBy_perm {α : Type} (metric : α → ℚ) (l : List α) :
    Perm (sortValuesDescBy metric l) l :=
  (List.reverse_perm _).trans
    ((List.perm_insertionSort _ _).trans (List.reverse_perm _))

/-- Summing map distributes over pointwise addition. -/
theorem sum_map_add_pointwise {α : Type} (l : List α) (f g : α → ℚ) :
    (l.map (fun x => f x + g x)).sum = (l.map f).sum + (l.map g).sum := by
  induction l with
  | nil => simp
  | cons x l ih =>
    simp only [List.map_cons, List.sum_cons, ih]
    ring

/-- Summing a one-hot indicator over a duplicate-free list containing the
hit yields the indicated value. -/
theorem sum_map_single_ite (K : List String) (c₀ : String) (a : ℚ)
    (hnd : K.Nodup) (hc : c₀ ∈ K) :
    (K.map (fun c => if c = c₀ then a else 0)).sum = a := by
  induction K with
  | nil => cases hc
  | cons k K ih =>
    rcases List.mem_cons.mp hc with h | h
    · subst h
      have hnotmem : c₀ ∉ K := (List.nodup_cons.mp hnd).1
      simp only [List.map_cons, List.sum_cons, if_pos rfl]
      have hz : (K.map (fun c => if c = c₀ then a else 0)).sum = 0 := by
        apply List.sum_eq_zero
        intro x hx
        obtain ⟨c, hcK, rfl⟩ := List.mem_map.mp hx
        rw [if_neg]
        intro he
        exact hnotmem (he ▸ hcK)
      rw [hz, add_zero]
      simp
    · have hk : k ≠ c₀ := by
        intro he
        exact (List.nodup_cons.mp hnd).1 (he ▸ h)
      simp only [List.map_cons, List.sum_cons, if_neg hk]
      rw [ih (List.nodup_cons.mp hnd).2 h, zero_add]

/-- Group sums over a duplicate-free key list covering every row add up to
the whole table's sum. -/
theorem sum_over_catGroups (df : Table) (K : List String) (hnd : K.Nodup)
    (hcov : ∀ r ∈ df, ∃ c ∈ K, r.category = some c) :
    (K.map (fun c => ((catGroup df c).map Row.amount).sum)).sum
      = (df.map Row.amount).sum := by
  induction df with
  | nil =>
    simp only [List.map_nil, List.sum_nil]
    apply List.sum_eq_zero
    intro x hx
    obtain ⟨c, _, rfl⟩ := List.mem_map.mp hx
    simp [catGroup]
  | cons r df ih =>
    obtain ⟨c₀, hc₀K, hc₀⟩ := hcov r (List.mem_cons_self r df)
    have hcov' : ∀ x ∈ df, ∃ c ∈ K, x.category = some c :=
      fun x hx => hcov x (List.mem_cons_of_mem r hx)
    have hpt : ∀ c ∈ K,
        ((catGroup (r :: df) c).map Row.amount).sum
          = (if c = c₀ then r.amount else 0) + ((catGroup df c).map Row.amount).sum := by
      intro c _
      unfold catGroup
      rw [List.filter_cons]
      by_cases hcc : c = c₀
      · subst hcc
        rw [if_pos (by simp [hc₀]), if_pos rfl]
        simp
      · have hcond : ¬ (r.category = some c) := by
          rw [hc₀]
          intro he
          exact hcc (Option.some.inj he).symm
        rw [if_neg (by simpa using hcond), if_neg hcc, zero_add]
    rw [List.map_congr_left hpt, sum_map_add_pointwise,
        sum_map_single_ite K c₀ r.amount hnd hc₀K, ih hcov']
    simp

/-- C6 counterexample row: amount 5 with a missing category. -/
def c6row : Row := mkRow "n1" none "Shop" 5 10 (some .january) "MH" 0

/-- C6 counterexample: the one-row table whose row has a missing category is
non-empty, yet `category_summary` drops the row, so the summed
`total_spend` is 0 while the table's amount sum is 5 — conservation fails
for this non-empty table. -/
theorem c6_counterexample :
    ((category_summary [c6row]).map (fun x => x.total_spend)).sum = 0 ∧
    (([c6row] : Table).map Row.amount).sum = 5 ∧
    ([c6row] : Table) ≠ [] := by
  refine ⟨rfl, by norm_num [c6row, mkRow], by simp⟩

/-- C6 amended: aggregation conserves the whole for every table all of whose
rows carry a present category (vacuously including the empty table): the sum
of `total_spend` over `category_summary` equals the sum of `amount` over the
input. -/
theorem c6_conservation (df : Table) (hcat : ∀ r ∈ df, r.category.isSome) :
    ((category_summary df).map (fun x => x.total_spend)).sum
      = (df.map Row.amount).sum := by
  have hperm : Perm (category_summary df) ((groupKeys Row.category df).map (catRowOf df)) :=
    sortValuesDescBy_perm _ _
  rw [(hperm.map (fun x => x.total_spend)).sum_eq, List.map_map]
  have hpt : ∀ c ∈ groupKeys Row.category df,
      ((fun x => x.total_spend) ∘ catRowOf df) c
        = ((catGroup df c).map Row.amount).sum := by
    intro c _
    rfl
  rw [List.map_congr_left hpt]
  apply sum_over_catGroups
  · exact ((List.perm_insertionSort _ _).nodup_iff).mpr
      (List.nodup_dedup (df.filterMap Row.category))
  · intro r hr
    obtain ⟨c, hc⟩ := Option.isSome_iff_exists.mp (hcat r hr)
    refine ⟨c, ?_, hc⟩
    have hmem : c ∈ (df.filterMap Row.category).dedup :=
      List.mem_dedup.mpr (List.mem_filterMap.mpr ⟨r, hr, hc⟩)
    exact ((List.perm_insertionSort _ _).mem_iff).mpr hmem

/-- A concrete two-category table for the C6 conservation witness. -/
def c6tabw : Table :=
  [mkRow "a" (some "Food") "Zomato" 120 10 (some .january) "MH" 0,
   mkRow "b" (some "Travel") "Uber" 80 11 (some .january) "KA" 1]

/-- Witness instantiating the amended conservation theorem. -/
theorem c6_conservation_witness :
    ((category_summary c6tabw).map (fun x => x.total_spend)).sum
      = (c6tabw.map Row.amount).sum :=
  c6_conservation c6tabw (by decide)

/-- The fixed category domain is strictly increasing in calendar position. -/
theorem calendarMonths_sorted :
    List.Pairwise (fun a b => monthIdx a < monthIdx b) calendarMonths := by
  decide

/-- Lists of equal length are equally empty. -/
theorem isEmpty_eq_of_length_eq {α β : Type} {l₁ : List α} {l₂ : List β}
    (h : l₁.length = l₂.length) : l₁.isEmpty = l₂.isEmpty := by
  cases l₁ <;> cases l₂ <;> simp_all

/-- A month's aggregate row is invariant under permutation of the input
rows. -/
theorem monthRowOf_perm (df df' : Table) (hp : Perm df df') (m : Month) :
    monthRowOf df m = monthRowOf df' m := by
  have hg : Perm (monthGroup df m) (monthGroup df' m) := by
    unfold monthGroup
    exact hp.filter _
  simp only [monthRowOf]
  rw [(hg.map Row.amount).sum_eq, hg.length_eq, (hg.map Row.is_fraud).sum_eq]

/-- The monthly summary is invariant under permutation of the input rows. -/
theorem monthly_summary_perm (df df' : Table) (hp : Perm df df') :
    monthly_summary df = monthly_summary df' := by
  unfold monthly_summary
  have hfil : ∀ m ∈ calendarMonths,
      (!(monthGroup df m).isEmpty) = (!(monthGroup df' m).isEmpty) := by
    intro m _
    have hg : Perm (monthGroup df m) (monthGroup df' m) := by
      unfold monthGroup
      exact hp.filter _
    rw [isEmpty_eq_of_length_eq hg.length_eq]
  rw [List.filter_congr hfil]
  apply List.map_congr_left
  intro m _
  exact monthRowOf_perm df df' hp m

/-- C7: the rows of `monthly_summary` appear in the fixed calendar order of
`month_name` (January through December), and the output is invariant under
permutation of the input rows, hence independent of the order in which
month names appear in the data. -/
theorem c7_monthly_summary_calendar_order (df df' : Table) (hp : Perm df df') :
    List.Pairwise (fun a b => monthIdx a.month_name < monthIdx b.month_name)
      (monthly_summary df) ∧
    monthly_summary df = monthly_summary df' := by
  constructor
  · unfold monthly_summary
    rw [List.pairwise_map]
    exact List.Pairwise.filter _ calendarMonths_sorted
  · exact monthly_summary_perm df df' hp

/-- First row of the C7 witness table (a March transaction). -/
def c7ra : Row := mkRow "a" (some "Food") "Zomato" 10 1 (some .march) "MH" 0

/-- Second row of the C7 witness table (a January transaction). -/
def c7rb : Row := mkRow "b" (some "Food") "Zomato" 20 2 (some .january) "MH" 0

/-- C7 witness table, March row first. -/
def c7t1 : Table := [c7ra, c7rb]

/-- C7 witness table, January row first. -/
def c7t2 : Table := [c7rb, c7ra]

/-- Witness instantiating the calendar-order theorem on a concrete pair of
permuted tables. -/
theorem c7_monthly_summary_calendar_order_witness :
    List.Pairwise (fun a b => monthIdx a.month_name < monthIdx b.month_name)
      (monthly_summary c7t1) ∧
    monthly_summary c7t1 = monthly_summary c7t2 :=
  c7_monthly_summary_calendar_order c7t1 c7t2 ((List.Perm.swap c7ra c7rb []).symm)

/-- The percentile rank is invariant under permutation of the column. -/
theorem rankPct_perm (xs ys : List ℚ) (hp : Perm xs ys) (a : ℚ) :
    rankPct xs a = rankPct ys a := by
  unfold rankPct
  rw [hp.countP_eq, hp.count_eq, hp.length_eq]

/-- Antisymmetry of the comparator used to sort rational columns. -/
instance : IsAntisymm ℚ (fun a b => a ≤ b) :=
  ⟨fun _ _ h1 h2 => le_antisymm h1 h2⟩

/-- Sorting two permuted columns gives the same sorted column. -/
theorem insertionSort_eq_of_perm (xs ys : List ℚ) (hp : Perm xs ys) :
    List.insertionSort (fun a b => a ≤ b) xs
      = List.insertionSort (fun a b => a ≤ b) ys := by
  refine List.eq_of_perm_of_sorted ?_ (sorted_insertionSort _ xs) (sorted_insertionSort _ ys)
  exact (perm_insertionSort _ xs).trans (hp.trans (perm_insertionSort _ ys).symm)

/-- The 0.95 quantile is invariant under permutation of the column. -/
theorem quantile95_perm (xs ys : List ℚ) (hp : Perm xs ys) :
    quantile95 xs = quantile95 ys := by
  unfold quantile95
  rw [insertionSort_eq_of_perm xs ys hp, hp.length_eq]

/-- The anomaly score of a fixed row is invariant under permutation of the
table it is scored against. -/
theorem anomalyScoreOf_perm (df df' : Table) (hp : Perm df df') (r : Row) :
    anomalyScoreOf df r = anomalyScoreOf df' r := by
  have hm : Perm (df.map Row.amount) (df'.map Row.amount) := hp.map _
  unfold anomalyScoreOf preScore highValScore
  rw [rankPct_perm _ _ hm, quantile95_perm _ _ hm]

/-- C5: with duplicate-free transaction ids, permuting the input rows does
not change any transaction's `anomaly_score`: rows of the two outputs of
`compute_anomaly_score` that agree on `transaction_id` carry equal scores,
because percentile rank and quantile are computed over the whole table and
are order-independent. -/
theorem c5_row_order_invariance (df df' : Table) (hp : Perm df df')
    (hnd : (df.map Row.transaction_id).Nodup)
    (s s' : ScoredRow)
    (hs : s ∈ compute_anomaly_score df) (hs' : s' ∈ compute_anomaly_score df')
    (hid : s.row.transaction_id = s'.row.transaction_id) :
    s.anomaly_score = s'.anomaly_score := by
  simp only [compute_anomaly_score, List.mem_map] at hs hs'
  obtain ⟨r, hr, rfl⟩ := hs
  obtain ⟨r', hr', rfl⟩ := hs'
  have hr'' : r' ∈ df := hp.mem_iff.mpr hr'
  have heq : r = r' := List.inj_on_of_nodup_map hnd hr hr'' hid
  simp only
  rw [← heq]
  exact anomalyScoreOf_perm df df' hp r

/-- First row of the C5 witness table. -/
def c5ra : Row := mkRow "t1" (some "Food") "Zomato" 100 2 (some .january) "MH" 0

/-- Second row of the C5 witness table. -/
def c5rb : Row := mkRow "t2" (some "Travel") "Uber" 900 14 (some .june) "KA" 1

/-- C5 witness table in one order. -/
def c5t1 : Table := [c5ra, c5rb]

/-- C5 witness table in the swapped order. -/
def c5t2 : Table := [c5rb, c5ra]

/-- Witness instantiating the permutation-invariance theorem on a concrete
pair of permuted tables. -/
theorem c5_row_order_invariance_witness :
    anomalyScoreOf c5t1 c5ra = anomalyScoreOf c5t2 c5ra :=
  c5_row_order_invariance c5t1 c5t2 (List.Perm.swap c5rb c5ra []) (by decide)
    ⟨c5ra, anomalyScoreOf c5t1 c5ra⟩ ⟨c5ra, anomalyScoreOf c5t2 c5ra⟩
    (List.mem_map_of_mem _ (List.mem_cons_self _ _))
    (List.mem_map_of_mem _ (List.mem_cons_of_mem _ (List.mem_cons_self _ _)))
    rfl

/-- Inserting an element that precedes every element of the list under the
tie relation into a list sorted by metric with tie-relation ties, walking
by metric only, keeps the list sorted by metric with tie-relation ties. -/
theorem orderedInsert_pairwise_lex {α : Type} (metric : α → ℚ) (kr : α → α → Prop)
    (x : α) (S : List α)
    (hS : List.Pairwise (fun a b =>
        metric a < metric b ∨ (metric a = metric b ∧ kr a b)) S)
    (hkey : ∀ b ∈ S, kr x b) :
    List.Pairwise (fun a b =>
        metric a < metric b ∨ (metric a = metric b ∧ kr a b))
      (List.orderedInsert (fun a b => metric a ≤ metric b) x S) := by
  induction S with
  | nil => simp
  | cons b S ih =>
    rw [List.orderedInsert]
    by_cases hxb : metric x ≤ metric b
    · rw [if_pos hxb]
      refine List.pairwise_cons.mpr ⟨?_, hS⟩
      intro c hc
      rcases List.mem_cons.mp hc with rfl | hcS
      · rcases lt_or_eq_of_le hxb with hlt | heq
        · exact Or.inl hlt
        · exact Or.inr ⟨heq, hkey c (List.mem_cons_self c S)⟩
      · have hbc := (List.pairwise_cons.mp hS).1 c hcS
        have hbcle : metric b ≤ metric c := by
          rcases hbc with hlt | ⟨heq, _⟩
          · exact le_of_lt hlt
          · exact le_of_eq heq
        rcases lt_or_eq_of_le (le_trans hxb hbcle) with hlt | heq
        · exact Or.inl hlt
        · exact Or.inr ⟨heq, hkey c (List.mem_cons_of_mem b hcS)⟩
    · rw [if_neg hxb]
      have hbx : metric b < metric x := lt_of_not_le hxb
      refine List.pairwise_cons.mpr ⟨?_, ih (List.pairwise_cons.mp hS).2
        (fun c hc => hkey c (List.mem_cons_of_mem b hc))⟩
      intro c hc
      have hc' : c ∈ x :: S := (List.perm_orderedInsert _ x S).mem_iff.mp hc
      rcases List.mem_cons.mp hc' with rfl | hcS
      · exact Or.inl hbx
      · exact (List.pairwise_cons.mp hS).1 c hcS

/-- Ascending insertion sort by metric of a list sorted under the tie
relation is stable: the result is sorted by metric with tie-relation
ties. -/
theorem insertionSort_pairwise_lex {α : Type} (metric : α → ℚ) (kr : α → α → Prop)
    (l : List α)
    (hl : List.Pairwise kr l) :
    List.Pairwise (fun a b =>
        metric a < metric b ∨ (metric a = metric b ∧ kr a b))
      (List.insertionSort (fun a b => metric a ≤ metric b) l) := by
  induction l with
  | nil => simp
  | cons x l ih =>
    rw [List.insertionSort]
    apply orderedInsert_pairwise_lex
    · exact ih (List.pairwise_cons.mp hl).2
    · intro b hb
      exact (List.pairwise_cons.mp hl).1 b ((perm_insertionSort _ l).mem_iff.mp hb)

/-- The modelled `sort_values(ascending=False)` of a list sorted under the
tie relation is sorted by strictly descending metric, and elements tied on
the metric keep their original relative order (stable descending sort:
the two reversals around the stable ascending sort cancel on ties). -/
theorem sortValuesDescBy_pairwise_lex {α : Type} (metric : α → ℚ)
    (kr : α → α → Prop) (l : List α) (hl : List.Pairwise kr l) :
    List.Pairwise (fun a b =>
        metric b < metric a ∨ (metric b = metric a ∧ kr a b))
      (sortValuesDescBy metric l) := by
  unfold sortValuesDescBy
  rw [List.pairwise_reverse]
  exact insertionSort_pairwise_lex metric (fun a b => kr b a) l.reverse
    (List.pairwise_reverse.mpr hl)

/-- Group keys are strictly increasing: sorted and duplicate-free. -/
theorem groupKeys_pairwise_lt (key : Row → Option String) (df : Table) :
    List.Pairwise (fun a b => a < b) (groupKeys key df) := by
  unfold groupKeys
  have hs : List.Pairwise (fun a b : String => a ≤ b)
      (List.insertionSort (fun a b : String => a ≤ b) (df.filterMap key).dedup) :=
    sorted_insertionSort _ _
  have hnd : List.Pairwise (fun a b : String => a ≠ b)
      (List.insertionSort (fun a b : String => a ≤ b) (df.filterMap key).dedup) :=
    ((perm_insertionSort _ _).nodup_iff).mpr (List.nodup_dedup _)
  exact (hs.and hnd).imp (fun h => lt_of_le_of_ne h.1 h.2)

/-- C9: every descending-sorted Aggregator output is a deterministic
function of the input (the embedding is a pure function, so identical
input gives identical output across runs), ordered by strictly descending
`total_spend`; groups tied on the metric keep their groupby order —
ascending, i.e. first-encountered/lexicographic, key order — because
pandas implements `ascending=False` as a stable descending sort (array
and indexer are reversed around a stable ascending argsort). -/
theorem c9_sorted_outputs_tie_order (df : Table) (n : Nat) :
    List.Pairwise (fun a b =>
        b.total_spend < a.total_spend ∨
        (b.total_spend = a.total_spend ∧ a.category < b.category))
      (category_summary df) ∧
    List.Pairwise (fun a b =>
        b.total_spend < a.total_spend ∨
        (b.total_spend = a.total_spend ∧ a.merchant < b.merchant))
      (top_merchants df n) ∧
    List.Pairwise (fun a b =>
        b.total_spend < a.total_spend ∨
        (b.total_spend = a.total_spend ∧ a.state < b.state))
      (state_summary df) := by
  refine ⟨?_, ?_, ?_⟩
  · unfold category_summary
    apply sortValuesDescBy_pairwise_lex (fun x : CatSummaryRow => x.total_spend)
      (fun a b : CatSummaryRow => a.category < b.category)
    rw [List.pairwise_map]
    exact groupKeys_pairwise_lt Row.category df
  · unfold top_merchants
    apply List.Pairwise.sublist (List.take_sublist _ _)
    apply sortValuesDescBy_pairwise_lex (fun x : MerchantSummaryRow => x.total_spend)
      (fun a b : MerchantSummaryRow => a.merchant < b.merchant)
    rw [List.pairwise_map]
    exact groupKeys_pairwise_lt (fun r => some r.merchant) df
  · unfold state_summary
    apply sortValuesDescBy_pairwise_lex (fun x : StateSummaryRow => x.total_spend)
      (fun a b : StateSummaryRow => a.state < b.state)
    rw [List.pairwise_map]
    exact groupKeys_pairwise_lt (fun r => some r.state) df

/-- A date column whose present cells all parse loads without error. -/
theorem parseDateColumn_ok (parseD : String → Option Nat)
    (rows : List (List (String × String)))
    (h : ∀ row ∈ rows, ∀ s, getCell row "date" = some s → (parseD s).isSome) :
    ∃ ds, parseDateColumn parseD rows = .ok ds := by
  induction rows with
  | nil => exact ⟨[], rfl⟩
  | cons row rest ih =>
    obtain ⟨ds, hds⟩ := ih (fun r hr s hs => h r (List.mem_cons_of_mem row hr) s hs)
    cases hcell : getCell row "date" with
    | none =>
      refine ⟨none :: ds, ?_⟩
      simp only [parseDateColumn, hcell, hds, Except.map]
    | some s =>
      have hps := h row (List.mem_cons_self row rest) s hcell
      obtain ⟨d, hd⟩ := Option.isSome_iff_exists.mp hps
      refine ⟨some d :: ds, ?_⟩
      simp only [parseDateColumn, hcell, hd, hds, Except.map]

/-- A date column with a present unparseable cell fails to load: the first
offending cell raises the `pd.to_datetime` parse error. -/
theorem parseDateColumn_error (parseD : String → Option Nat)
    (rows : List (List (String × String)))
    (h : ∃ row ∈ rows, ∃ s, getCell row "date" = some s ∧ parseD s = none) :
    ∃ s, parseDateColumn parseD rows = .error (.unparseableDate s) := by
  induction rows with
  | nil =>
    obtain ⟨row, hmem, _⟩ := h
    cases hmem
  | cons row rest ih =>
    obtain ⟨r, hmem, s, hs, hnone⟩ := h
    cases hcell : getCell row "date" with
    | none =>
      have hrest : ∃ r ∈ rest, ∃ s, getCell r "date" = some s ∧ parseD s = none := by
        rcases List.mem_cons.mp hmem with heq | hr
        · subst heq
          rw [hcell] at hs
          simp at hs
        · exact ⟨r, hr, s, hs, hnone⟩
      obtain ⟨t, ht⟩ := ih hrest
      exact ⟨t, by simp only [parseDateColumn, hcell, ht, Except.map]⟩
    | some u =>
      cases hpu : parseD u with
      | none => exact ⟨u, by simp only [parseDateColumn, hcell, hpu]⟩
      | some d =>
        have hrest : ∃ r ∈ rest, ∃ s, getCell r "date" = some s ∧ parseD s = none := by
          rcases List.mem_cons.mp hmem with heq | hr
          · subst heq
            rw [hcell] at hs
            obtain rfl := Option.some.inj hs
            rw [hnone] at hpu
            simp at hpu
          · exact ⟨r, hr, s, hs, hnone⟩
        obtain ⟨t, ht⟩ := ih hrest
        exact ⟨t, by simp only [parseDateColumn, hcell, hpu, ht, Except.map]⟩

/-- C8 amended: the loader validates exactly the three columns it touches —
it fails when `datetime`, `date` or `month_name` is absent, and fails with
the `pd.to_datetime` parse error when a present `date` cell is
unparseable, all pandas built-in errors (the code has no custom
`MalformedInputError` class); an unparseable `datetime` value is silently
left unparsed rather than failing, and no other column or value —
category and merchant included — is validated at load. -/
theorem c8_loader_failure_modes (parseDT parseD : String → Option Nat) (csv : RawCSV) :
    ("datetime" ∉ csv.header → load_data parseDT parseD csv = .error .missingDatetime) ∧
    ("datetime" ∈ csv.header → "date" ∉ csv.header →
        load_data parseDT parseD csv = .error .missingDate) ∧
    ("datetime" ∈ csv.header → "date" ∈ csv.header → "month_name" ∉ csv.header →
        (∀ row ∈ csv.rows, ∀ s, getCell row "date" = some s → (parseD s).isSome) →
        load_data parseDT parseD csv = .error .missingMonthName) ∧
    ("datetime" ∈ csv.header → "date" ∈ csv.header → "month_name" ∈ csv.header →
        (∀ row ∈ csv.rows, ∀ s, getCell row "date" = some s → (parseD s).isSome) →
        ∃ t, load_data parseDT parseD csv = .ok t) ∧
    ("datetime" ∈ csv.header → "date" ∈ csv.header →
        (∃ row ∈ csv.rows, ∃ s, getCell row "date" = some s ∧ parseD s = none) →
        ∃ s, load_data parseDT parseD csv = .error (.unparseableDate s)) := by
  refine ⟨?_, ?_, ?_, ?_, ?_⟩
  · intro h
    unfold load_data
    rw [if_neg h]
  · intro h1 h2
    unfold load_data
    rw [if_pos h1, if_neg h2]
  · intro h1 h2 h3 hall
    obtain ⟨ds, hds⟩ := parseDateColumn_ok parseD csv.rows hall
    unfold load_data
    rw [if_pos h1, if_pos h2, hds]
    simp [h3]
  · intro h1 h2 h3 hall
    obtain ⟨ds, hds⟩ := parseDateColumn_ok parseD csv.rows hall
    unfold load_data
    rw [if_pos h1, if_pos h2, hds]
    simp only [h3, if_true]
    exact ⟨_, rfl⟩
  · intro h1 h2 hbad
    obtain ⟨s, hs⟩ := parseDateColumn_error parseD csv.rows hbad
    refine ⟨s, ?_⟩
    unfold load_data
    rw [if_pos h1, if_pos h2, hs]

/-- A stand-in for the external pandas date parser in the concrete loader
instances: accepts exactly the cell value used there. -/
def demoParser (s : String) : Option Nat := if s = "3" then some 3 else none

/-- C8 counterexample CSV: every column present, the `date` cell parseable,
the `datetime` cell unparseable. -/
def c8csv : RawCSV :=
  { header := ["datetime", "date", "month_name", "category", "merchant", "amount"]
    rows := [[("datetime", "bad"), ("date", "3"), ("month_name", "March"),
              ("category", "???"), ("merchant", "???"), ("amount", "5")]] }

/-- C8 counterexample: with an unparseable `datetime` cell the loader does
not fail — `read_csv(parse_dates=[...])` silently leaves the unparseable
value unparsed — contradicting the claim that an unparseable temporal
field is fatal at load. -/
theorem c8_counterexample :
    demoParser "bad" = none ∧
    load_data demoParser demoParser c8csv =
      .ok [{ datetime := none, date := some 3, month_name := some .march,
             raw := [("datetime", "bad"), ("date", "3"), ("month_name", "March"),
                     ("category", "???"), ("merchant", "???"), ("amount", "5")] }] :=
  ⟨rfl, rfl⟩

/-- CSV missing the datetime column. -/
def c8csvA : RawCSV := { header := ["date", "month_name"], rows := [] }

/-- CSV missing the date column. -/
def c8csvB : RawCSV := { header := ["datetime", "month_name"], rows := [] }

/-- CSV missing the month_name column. -/
def c8csvC : RawCSV := { header := ["datetime", "date"], rows := [] }

/-- CSV with all three required columns. -/
def c8csvD : RawCSV := { header := ["datetime", "date", "month_name"], rows := [] }

/-- CSV whose single row has an unparseable date cell. -/
def c8csvE : RawCSV :=
  { header := ["datetime", "date", "month_name"]
    rows := [[("datetime", "3"), ("date", "nope"), ("month_name", "May")]] }

/-- Witness instantiating each loader failure mode on a concrete CSV. -/
theorem c8_loader_failure_modes_witness :
    load_data demoParser demoParser c8csvA = .error .missingDatetime ∧
    load_data demoParser demoParser c8csvB = .error .missingDate ∧
    load_data demoParser demoParser c8csvC = .error .missingMonthName ∧
    (∃ t, load_data demoParser demoParser c8csvD = .ok t) ∧
    (∃ s, load_data demoParser demoParser c8csvE = .error (.unparseableDate s)) :=
  ⟨(c8_loader_failure_modes demoParser demoParser c8csvA).1 (by decide),
   (c8_loader_failure_modes demoParser demoParser c8csvB).2.1 (by decide) (by decide),
   (c8_loader_failure_modes demoParser demoParser c8csvC).2.2.1 (by decide) (by decide)
     (by decide) (by simp [c8csvC]),
   (c8_loader_failure_modes demoParser demoParser c8csvD).2.2.2.1 (by decide) (by decide)
     (by decide) (by simp [c8csvD]),
   (c8_loader_failure_modes demoParser demoParser c8csvE).2.2.2.2 (by decide) (by decide)
     ⟨[("datetime", "3"), ("date", "nope"), ("month_name", "May")],
      List.mem_singleton.mpr rfl, "nope", rfl, rfl⟩⟩

/-- A concrete row for the C4 frame witness. -/
def c4row : Row := mkRow "w4" (some "Bills") "BSES" 250 3 (some .april) "DL" 0

/-- A concrete one-row table for the C4 frame witness. -/
def c4tab : Table := [c4row]

/-- Witness instantiating the frame theorem on a concrete table and a
concrete member of its scored output. -/
theorem c4_returns_augmented_copy_witness :
    (compute_anomaly_score c4tab).map ScoredRow.row = c4tab ∧
    (⟨c4row, anomalyScoreOf c4tab c4row⟩ : ScoredRow).anomaly_score
      = anomalyScoreOf c4tab (⟨c4row, anomalyScoreOf c4tab c4row⟩ : ScoredRow).row :=
  ⟨(c4_returns_augmented_copy c4tab).1,
   (c4_returns_augmented_copy c4tab).2.2 ⟨c4row, anomalyScoreOf c4tab c4row⟩
     (List.mem_map_of_mem _ (List.mem_cons_self _ _))⟩
